import Mathlib

/-!
Shallow embedding of the AuditIQ browser client (src/static/js/app.js):
the severity and branch aggregators, the analyze and generate-report click
handlers, and the page-load restore step.  JSON values are an inductive
type; JavaScript objects built from JSON.parse are association lists in
insertion order (a later duplicate key replaces the earlier value in
place, as JSON.parse does); JSON numbers are modelled exactly as a
mantissa times a power of ten.
-/

namespace AuditIQ

/-- JSON value as produced by JSON.parse: numbers carry a mantissa and a
decimal exponent, objects are insertion-ordered association lists. -/
inductive Json where
  | null : Json
  | bool (b : Bool) : Json
  | num (m : Int) (e : Int) : Json
  | str (s : String) : Json
  | arr (elems : List Json) : Json
  | obj (fields : List (String × Json)) : Json
deriving Repr, Inhabited

/-- Host-thrown JavaScript errors relevant to this client: JSON.parse
syntax errors and the TypeError raised by property access or method calls
on unsuitable values.  Their message text is host-defined and not
modelled. -/
inductive JsErr where
  | syntaxError : JsErr
  | typeError : JsErr
deriving Repr, DecidableEq

/-- Own-property lookup on an object whose keys are unique by
construction. -/
def lookupField : List (String × Json) → String → Option Json
  | [], _ => none
  | (k, v) :: rest, key => if k = key then some v else lookupField rest key

/-- Key insertion as JSON.parse performs it: an existing key keeps its
position and takes the new value, a new key is appended. -/
def objInsert : List (String × Json) → String → Json → List (String × Json)
  | [], key, v => [(key, v)]
  | (k, w) :: rest, key, v =>
    if k = key then (k, v) :: rest else (k, w) :: objInsert rest key v

/-- JavaScript truthiness of a JSON-derived value. -/
def truthy : Json → Bool
  | .null => false
  | .bool b => b
  | .num m _ => m != 0
  | .str s => s != ""
  | .arr _ => true
  | .obj _ => true

/-- Property access `o.k`: throws TypeError on null, yields the named
field of an object (undefined is `none`), and undefined on the remaining
primitives (the prototype chain is not modelled). -/
def getProp : Json → String → Except JsErr (Option Json)
  | .null, _ => .error .typeError
  | .obj fields, key => .ok (lookupField fields key)
  | _, _ => .ok none

/-! ### Severity Aggregator — processSeverityData -/

/-- Lower-case one character, as Char.toLower does on the ASCII range. -/
def lowerChar (c : Char) : Char :=
  if 65 ≤ c.toNat ∧ c.toNat ≤ 90 then Char.ofNat (c.toNat + 32) else c

/-- Case fold modelling `toLowerCase()` on the ASCII label alphabet this
client compares against (Unicode case mapping beyond ASCII is not
modelled). -/
def lowerString (s : String) : String := String.mk (s.data.map lowerChar)

/-- Severity bucket key of one finding, from
`(finding.severity || 'unspecified').toLowerCase()`: a missing or falsy
severity falls back to "unspecified" before the case fold; a truthy
non-string severity has no toLowerCase method and throws; property access
on a null finding throws. -/
def severityKey (finding : Json) : Except JsErr String :=
  match getProp finding "severity" with
  | .error e => .error e
  | .ok (some v) =>
    if truthy v then
      match v with
      | .str s => .ok (lowerString s)
      | _ => .error .typeError
    else .ok "unspecified"
  | .ok none => .ok "unspecified"

/-- One step of `counts[key] = (counts[key] || 0) + 1` on an
insertion-ordered counts object. -/
def bump : List (String × Nat) → String → List (String × Nat)
  | [], key => [(key, 1)]
  | (k, n) :: rest, key =>
    if k = key then (k, n + 1) :: rest else (k, n) :: bump rest key

/-- Read a count back out of the counts object; an absent key reads as 0,
matching `counts[key] || 0` for the values this object holds. -/
def getCount : List (String × Nat) → String → Nat
  | [], _ => 0
  | (k, n) :: rest, key => if k = key then n else getCount rest key

/-- The four buckets pre-seeded by processSeverityData. -/
def initCounts : List (String × Nat) :=
  [("high", 0), ("medium", 0), ("low", 0), ("unspecified", 0)]

/-- Fold of the forEach body over the findings, threading the counts
object and propagating host throws. -/
def countSeverities :
    List (String × Nat) → List Json → Except JsErr (List (String × Nat))
  | m, [] => .ok m
  | m, f :: fs =>
    match severityKey f with
    | .error e => .error e
    | .ok key => countSeverities (bump m key) fs

/-- Chart-ready output of processSeverityData. -/
structure SeverityResult where
  labels : List String
  values : List Nat
  colors : List String
  borderColors : List String
deriving Repr, DecidableEq

def severityLabels : List String := ["High", "Medium", "Low", "Unspecified"]

def severityColors : List String :=
  ["rgba(220,53,69,0.7)", "rgba(255,193,7,0.7)",
   "rgba(25,135,84,0.7)", "rgba(108,117,125,0.7)"]

def severityBorderColors : List String :=
  ["rgba(220,53,69,1)", "rgba(255,193,7,1)",
   "rgba(25,135,84,1)", "rgba(108,117,125,1)"]

/-- The object literal processSeverityData returns: only the four
pre-seeded keys are read back; keys created for other severities are
dropped. -/
def severityResultOf (m : List (String × Nat)) : SeverityResult :=
  ⟨severityLabels,
   [getCount m "high", getCount m "medium",
    getCount m "low", getCount m "unspecified"],
   severityColors, severityBorderColors⟩

/-- processSeverityData on the value of `data.analysis.findings` (none
models the absent field).  `findings ?.forEach` skips null and undefined,
iterates arrays, and throws on other values, which lack a forEach
method. -/
def processSeverityData (findings : Option Json) : Except JsErr SeverityResult :=
  match findings with
  | none => .ok (severityResultOf initCounts)
  | some .null => .ok (severityResultOf initCounts)
  | some (.arr fs) =>
    match countSeverities initCounts fs with
    | .error e => .error e
    | .ok m => .ok (severityResultOf m)
  | some _ => .error .typeError

/-! ### Branch Aggregator — processBranchData -/

/-- Strip factors of ten from a decimal mantissa while the exponent is
negative, so the printed form carries no trailing fractional zeros. -/
def stripZeros : Nat → Nat → Int → Nat × Int
  | 0, n, e => (n, e)
  | fuel + 1, n, e =>
    if e < 0 ∧ n % 10 = 0 ∧ n ≠ 0 then stripZeros fuel (n / 10) (e + 1)
    else (n, e)

/-- Left-pad a digit string with zeros to the given length. -/
def padZeros (s : String) (len : Nat) : String :=
  String.mk (List.replicate (len - s.length) '0') ++ s

/-- Decimal rendering of the exact value m times ten to the e, as
JavaScript prints the corresponding number at the magnitudes this client
handles (exponential notation for extreme magnitudes is not modelled). -/
def numToString (m : Int) (e : Int) : String :=
  if m = 0 then "0"
  else
    let sign := if m < 0 then "-" else ""
    let p := stripZeros e.natAbs m.natAbs e
    let n := p.1
    let e := p.2
    if 0 ≤ e then sign ++ Nat.repr (n * 10 ^ e.toNat)
    else
      let k := e.natAbs
      sign ++ Nat.repr (n / 10 ^ k) ++ "." ++ padZeros (Nat.repr (n % 10 ^ k)) k

mutual

/-- String conversion applied when a value is used as an object key,
String(v): arrays join their elements with commas (null elements join as
the empty string), plain objects print as "[object Object]". -/
def jsToString : Json → String
  | .null => "null"
  | .bool true => "true"
  | .bool false => "false"
  | .num m e => numToString m e
  | .str s => s
  | .obj _ => "[object Object]"
  | .arr xs => jsJoinList xs

/-- Array.prototype.join with the default comma separator. -/
def jsJoinList : List Json → String
  | [] => ""
  | [x] => jsJoinElem x
  | x :: xs => jsJoinElem x ++ "," ++ jsJoinList xs

/-- One joined element: null joins as the empty string. -/
def jsJoinElem : Json → String
  | .null => ""
  | .bool true => "true"
  | .bool false => "false"
  | .num m e => numToString m e
  | .str s => s
  | .obj _ => "[object Object]"
  | .arr xs => jsJoinList xs

end

/-- Branch bucket key of one participant, from
`p.branch || 'Unspecified'` used as an object key: a missing or falsy
branch becomes the literal label "Unspecified", and a truthy non-string
branch is coerced to a string by the key access. -/
def branchKeyOf (p : Json) : Except JsErr String :=
  match getProp p "branch" with
  | .error e => .error e
  | .ok (some v) => .ok (if truthy v then jsToString v else "Unspecified")
  | .ok none => .ok "Unspecified"

/-- Fold of the forEach body over the participants, threading the counts
object and propagating host throws. -/
def countBranches :
    List (String × Nat) → List Json → Except JsErr (List (String × Nat))
  | m, [] => .ok m
  | m, p :: ps =>
    match branchKeyOf p with
    | .error e => .error e
    | .ok key => countBranches (bump m key) ps

/-- Hue of bucket i in thousandths of a degree:
(i * 137.508) mod 360, computed exactly (the source computes the same
formula in floating point). -/
def hueMilli (i : Nat) : Nat := (i * 137508) % 360000

/-- Decimal rendering of the hue. -/
def hueString (i : Nat) : String := numToString (hueMilli i) (-3)

/-- Color of the i-th branch bucket: a golden-angle hue with fixed
saturation 70%, lightness 60% and alpha 0.7. -/
def branchColor (i : Nat) : String :=
  "hsla(" ++ hueString i ++ ", 70%, 60%, 0.7)"

/-- Chart-ready output of processBranchData. -/
structure BranchResult where
  labels : List String
  values : List Nat
  colors : List String
deriving Repr, DecidableEq

def isDigitChar (c : Char) : Bool := '0' ≤ c ∧ c ≤ '9'

/-- Numeric value of a run of decimal digits. -/
def digitsVal (ds : List Char) : Nat :=
  ds.foldl (fun a c => a * 10 + (c.toNat - 48)) 0

/-- Whether a key is an array index in the ECMAScript sense: the
canonical decimal string of an integer n with 0 ≤ n < 2^32 - 1.
Own-property enumeration lists such keys before all other string
keys. -/
def isArrayIndex (s : String) : Bool :=
  match s.data with
  | [] => false
  | c :: cs =>
    (c :: cs).all isDigitChar && (decide (c ≠ '0') || decide (cs = [])) &&
      decide (digitsVal (c :: cs) < 4294967295)

/-- Numeric value of an array-index key. -/
def idxVal (s : String) : Nat := digitsVal s.data

def insertSorted (k : String) : List String → List String
  | [] => [k]
  | x :: xs =>
    if idxVal k ≤ idxVal x then k :: x :: xs else x :: insertSorted k xs

/-- Ascending numeric sort of array-index keys (insertion sort; distinct
canonical keys have distinct values, so ties cannot arise). -/
def sortIndices : List String → List String
  | [] => []
  | k :: ks => insertSorted k (sortIndices ks)

/-- Object.keys on the counts object: the ECMAScript own-property order
puts array-index keys first in ascending numeric order, then the
remaining string keys in insertion (creation) order. -/
def objectKeys (m : List (String × Nat)) : List String :=
  sortIndices ((m.map Prod.fst).filter isArrayIndex) ++
    (m.map Prod.fst).filter (fun k => !isArrayIndex k)

/-- The object literal processBranchData returns: Object.keys order of
the counts object, the counts read back per label, and the positional
colors. -/
def branchResultOf (m : List (String × Nat)) : BranchResult :=
  let labels := objectKeys m
  ⟨labels, labels.map (getCount m), (List.range labels.length).map branchColor⟩

/-- processBranchData on the value of `data.analysis.participants` (none
models the absent field).  `participants ?.forEach` skips null and
undefined, iterates arrays, and throws on other values. -/
def processBranchData (participants : Option Json) : Except JsErr BranchResult :=
  match participants with
  | none => .ok (branchResultOf [])
  | some .null => .ok (branchResultOf [])
  | some (.arr ps) =>
    match countBranches [] ps with
    | .error e => .error e
    | .ok m => .ok (branchResultOf m)
  | some _ => .error .typeError

/-! ### JSON.parse and JSON.stringify -/

/-- JSON insignificant whitespace. -/
def isWs (c : Char) : Bool := c = ' ' ∨ c = '\t' ∨ c = '\n' ∨ c = '\r'

def skipWs : List Char → List Char
  | [] => []
  | c :: cs => if isWs c then skipWs cs else c :: cs

def hexVal (c : Char) : Option Nat :=
  if '0' ≤ c ∧ c ≤ '9' then some (c.toNat - 48)
  else if 'a' ≤ c ∧ c ≤ 'f' then some (c.toNat - 87)
  else if 'A' ≤ c ∧ c ≤ 'F' then some (c.toNat - 55)
  else none

/-- Parse the body of a JSON string after its opening quote, handling the
escape sequences of the JSON grammar and rejecting raw control
characters. -/
def parseStrChars : Nat → List Char → Option (List Char × List Char)
  | 0, _ => none
  | fuel + 1, cs =>
    match cs with
    | [] => none
    | c :: rest =>
      if c = '"' then some ([], rest)
      else if c = '\\' then
        match rest with
        | [] => none
        | e :: rest2 =>
          let esc : Option (Char × List Char) :=
            if e = '"' then some ('"', rest2)
            else if e = '\\' then some ('\\', rest2)
            else if e = '/' then some ('/', rest2)
            else if e = 'b' then some ('\x08', rest2)
            else if e = 'f' then some ('\x0c', rest2)
            else if e = 'n' then some ('\n', rest2)
            else if e = 'r' then some ('\r', rest2)
            else if e = 't' then some ('\t', rest2)
            else if e = 'u' then
              match rest2 with
              | h1 :: h2 :: h3 :: h4 :: rest3 => do
                let a ← hexVal h1
                let b ← hexVal h2
                let c2 ← hexVal h3
                let d ← hexVal h4
                pure (Char.ofNat (a * 4096 + b * 256 + c2 * 16 + d), rest3)
              | _ => none
            else none
          match esc with
          | none => none
          | some (ch, rest3) => do
            let p ← parseStrChars fuel rest3
            pure (ch :: p.1, p.2)
      else if c.toNat < 32 then none
      else do
        let p ← parseStrChars fuel rest
        pure (c :: p.1, p.2)

/-- Take a maximal run of decimal digits. -/
def takeDigits : List Char → List Char × List Char
  | [] => ([], [])
  | c :: cs =>
    if '0' ≤ c ∧ c ≤ '9' then
      let p := takeDigits cs
      (c :: p.1, p.2)
    else ([], c :: cs)

/-- Parse an optional exponent part and build the number value. -/
def parseExpPart (m : Int) (e : Int) (cs : List Char) :
    Option (Json × List Char) :=
  match cs with
  | c :: r =>
    if c = 'e' ∨ c = 'E' then
      let sp : Int × List Char :=
        match r with
        | '+' :: t => (1, t)
        | '-' :: t => (-1, t)
        | _ => (1, r)
      let p := takeDigits sp.2
      if p.1 = [] then none
      else some (.num m (e + sp.1 * (digitsVal p.1 : Int)), p.2)
    else some (.num m e, c :: r)
  | [] => some (.num m e, [])

/-- Parse a JSON number: optional minus, an integer part with no leading
zero, an optional fraction, an optional exponent.  The exact decimal value
is kept (the host rounds it to a double; that rounding is not
modelled). -/
def parseNumber (cs : List Char) : Option (Json × List Char) :=
  let sp : Int × List Char :=
    match cs with
    | '-' :: r => (-1, r)
    | _ => (1, cs)
  let ip := takeDigits sp.2
  if ip.1 = [] then none
  else if 1 < ip.1.length ∧ ip.1.headD '0' = '0' then none
  else
    match ip.2 with
    | '.' :: r =>
      let fp := takeDigits r
      if fp.1 = [] then none
      else
        parseExpPart (sp.1 * (digitsVal (ip.1 ++ fp.1) : Int))
          (-(fp.1.length : Int)) fp.2
    | _ => parseExpPart (sp.1 * (digitsVal ip.1 : Int)) 0 ip.2

mutual

/-- Recursive-descent parser for one JSON value; the fuel bounds the
nesting depth, which the top-level wrapper sets above the input length. -/
def parseValue : Nat → List Char → Option (Json × List Char)
  | 0, _ => none
  | fuel + 1, cs =>
    match skipWs cs with
    | [] => none
    | c :: rest =>
      if c = 'n' then
        match rest with
        | 'u' :: 'l' :: 'l' :: r => some (.null, r)
        | _ => none
      else if c = 't' then
        match rest with
        | 'r' :: 'u' :: 'e' :: r => some (.bool true, r)
        | _ => none
      else if c = 'f' then
        match rest with
        | 'a' :: 'l' :: 's' :: 'e' :: r => some (.bool false, r)
        | _ => none
      else if c = '"' then do
        let p ← parseStrChars (rest.length + 1) rest
        pure (.str (String.mk p.1), p.2)
      else if c = '[' then
        match skipWs rest with
        | ']' :: r => some (.arr [], r)
        | r => do
          let p ← parseItems fuel r
          pure (.arr p.1, p.2)
      else if c = '\x7b' then
        match skipWs rest with
        | '\x7d' :: r => some (.obj [], r)
        | r => do
          let p ← parseFields fuel r
          pure (.obj (p.1.foldl (fun acc kv => objInsert acc kv.1 kv.2) []), p.2)
      else if c = '-' ∨ ('0' ≤ c ∧ c ≤ '9') then parseNumber (c :: rest)
      else none

/-- Comma-separated array items up to the closing bracket. -/
def parseItems : Nat → List Char → Option (List Json × List Char)
  | 0, _ => none
  | fuel + 1, cs => do
    let p ← parseValue fuel cs
    match skipWs p.2 with
    | ',' :: r => do
      let q ← parseItems fuel r
      pure (p.1 :: q.1, q.2)
    | ']' :: r => pure ([p.1], r)
    | _ => none

/-- Comma-separated object members up to the closing brace, in source
order with duplicates still present. -/
def parseFields : Nat → List Char → Option (List (String × Json) × List Char)
  | 0, _ => none
  | fuel + 1, cs =>
    match skipWs cs with
    | '"' :: r => do
      let kp ← parseStrChars (r.length + 1) r
      match skipWs kp.2 with
      | ':' :: r2 => do
        let vp ← parseValue fuel r2
        match skipWs vp.2 with
        | ',' :: r3 => do
          let q ← parseFields fuel r3
          pure ((String.mk kp.1, vp.1) :: q.1, q.2)
        | '\x7d' :: r3 => pure ([(String.mk kp.1, vp.1)], r3)
        | _ => none
      | _ => none
    | _ => none

end

/-- JSON.parse: one JSON value with surrounding whitespace; anything else
throws a SyntaxError (whose message text is host-defined). -/
def jsonParse (s : String) : Except JsErr Json :=
  match parseValue (s.length + 1) s.data with
  | some (v, rest) => if skipWs rest = [] then .ok v else .error .syntaxError
  | none => .error .syntaxError

/-- String.prototype.trim as the analyze handler applies it to the
textarea content. -/
def jsTrim (s : String) : String :=
  String.mk ((skipWs (skipWs s.data.reverse).reverse))

def hexDigit (n : Nat) : String :=
  String.singleton (if n < 10 then Char.ofNat (48 + n) else Char.ofNat (87 + n))

/-- JSON.stringify escaping of one string character. -/
def escChar (c : Char) : String :=
  if c = '"' then "\\\""
  else if c = '\\' then "\\\\"
  else if c = '\n' then "\\n"
  else if c = '\t' then "\\t"
  else if c = '\r' then "\\r"
  else if c = '\x08' then "\\b"
  else if c = '\x0c' then "\\f"
  else if c.toNat < 32 then "\\u00" ++ hexDigit (c.toNat / 16) ++ hexDigit (c.toNat % 16)
  else String.singleton c

def escapeString (s : String) : String :=
  "\"" ++ String.join (s.data.map escChar) ++ "\""

mutual

/-- JSON.stringify on a JSON-derived value (such values contain nothing
stringify would omit or replace). -/
def stringifyJson : Json → String
  | .null => "null"
  | .bool true => "true"
  | .bool false => "false"
  | .num m e => numToString m e
  | .str s => escapeString s
  | .arr xs => "[" ++ stringifyList xs ++ "]"
  | .obj fs => "\x7b" ++ stringifyFields fs ++ "\x7d"

def stringifyList : List Json → String
  | [] => ""
  | [x] => stringifyJson x
  | x :: xs => stringifyJson x ++ "," ++ stringifyList xs

def stringifyFields : List (String × Json) → String
  | [] => ""
  | [(k, v)] => escapeString k ++ ":" ++ stringifyJson v
  | (k, v) :: fs =>
    escapeString k ++ ":" ++ stringifyJson v ++ "," ++ stringifyFields fs

end

/-! ### Result Renderer — displayResults -/

/-- Rendering of one finding, modelled down to the host throws it can
raise: property access on a null finding, and toLowerCase in
getSeverityBadgeClass on a truthy non-string severity (`(finding.severity
|| '').toLowerCase()`); the title, description and recommendation reads
never throw once the finding itself is not null. -/
def renderFinding (f : Json) : Except JsErr Unit :=
  match getProp f "severity" with
  | .error e => .error e
  | .ok (some v) =>
    if truthy v then
      match v with
      | .str _ => .ok ()
      | _ => .error .typeError
    else .ok ()
  | .ok none => .ok ()

def forEachRender : List Json → Except JsErr Unit
  | [] => .ok ()
  | f :: fs =>
    match renderFinding f with
    | .error e => .error e
    | .ok _ => forEachRender fs

/-- The guard `findings ?.length > 0` followed by the forEach: null and
undefined short-circuit to the placeholder branch, arrays iterate, a
non-empty string passes the length test and then throws because strings
have no forEach, and values without a positive length render the
placeholder. -/
def renderFindings (findings : Option Json) : Except JsErr Unit :=
  match findings with
  | none => pure ()
  | some .null => pure ()
  | some (.arr fs) => if fs.length > 0 then forEachRender fs else pure ()
  | some (.str s) => if s.length > 0 then .error .typeError else pure ()
  | some (.obj flds) =>
    match lookupField flds "length" with
    | some (.num m _) => if 0 < m then .error .typeError else pure ()
    | _ => pure ()
  | some _ => pure ()

/-- displayResults, modelled down to the host throws its field accesses
can raise.  It reads `data.analysis.summary` (throwing when data is null
or data.analysis is null or undefined), renders the findings list, and
then generateCharts runs both aggregators on the same data. -/
def displayResults (data : Json) : Except JsErr Unit :=
  match getProp data "analysis" with
  | .error e => .error e
  | .ok none => .error .typeError
  | .ok (some .null) => .error .typeError
  | .ok (some analysis) =>
    match getProp analysis "findings" with
    | .error e => .error e
    | .ok findings =>
      match renderFindings findings with
      | .error e => .error e
      | .ok _ =>
        match processSeverityData findings with
        | .error e => .error e
        | .ok _ =>
          match getProp analysis "participants" with
          | .error e => .error e
          | .ok participants =>
            match processBranchData participants with
            | .error e => .error e
            | .ok _ => .ok ()

/-! ### Session Controller — state and handlers -/

/-- Client state the handlers read and write: the current analysis slot,
the persisted localStorage value under the key previousAnalysis, and what
the result panels last rendered. -/
structure St where
  currentAnalysis : Option Json
  stored : Option String
  displayed : Option Json

/-- What the analysis collaborator sends back: the HTTP ok flag and the
result of response.json(), which throws on a non-JSON body. -/
structure Response where
  ok : Bool
  body : Except JsErr Json

/-- Message of a thrown Error as the catch block interpolates it: either
String(v) of the truthy value passed to the Error constructor, or the
literal fallback text 'Analysis failed'. -/
inductive ThrownMsg where
  | ofJson (v : Json)
  | fallback
deriving Repr

/-- Alerts the handlers can surface. -/
inductive AlertOut where
  | validationError
  | analysisFailed (m : ThrownMsg)
  | analysisFailedHost (e : JsErr)
  | noAnalysisWarning
  | reportFailed
deriving Repr

/-- Result of one analyze click: the state afterwards, the body of the
network request if one was issued, and the alert if one was shown. -/
structure ClickOut where
  st : St
  request : Option String
  alert : Option AlertOut

/-- Evaluation of `auditData.audit_report ?.exceptions`: undefined when
audit_report is null or undefined, otherwise the exceptions field. -/
def auditExceptionsOf (j : Json) : Except JsErr (Option Json) :=
  match getProp j "audit_report" with
  | .error e => .error e
  | .ok none => .ok none
  | .ok (some .null) => .ok none
  | .ok (some v) => getProp v "exceptions"

/-- The analyze click before any network activity. -/
inductive PreOutcome where
  | hostError (e : JsErr)
  | invalid
  | send (body : String)
deriving Repr

/-- Trim, JSON.parse, and the truthiness test on
`auditData.audit_report ?.exceptions`; on pass the fetch body is the
trimmed text verbatim. -/
def analyzeValidate (text : String) : PreOutcome :=
  let t := jsTrim text
  match jsonParse t with
  | .error e => .hostError e
  | .ok j =>
    match auditExceptionsOf j with
    | .error e => .hostError e
    | .ok none => .invalid
    | .ok (some v) => if truthy v then .send t else .invalid

/-- The Error thrown on a non-ok response,
`new Error(data.error || 'Analysis failed')`; reading data.error throws
when the body was null. -/
def serviceError (data : Json) : Except JsErr ThrownMsg :=
  match getProp data "error" with
  | .error e => .error e
  | .ok (some x) => .ok (if truthy x then .ofJson x else .fallback)
  | .ok none => .ok .fallback

/-- The analyze click handler: validate, fetch, parse the response, and
either install the new analysis — slot, localStorage and render, in that
order — or surface the failure and leave the state alone.  The response
argument stands for what the collaborator returns when the request is
issued. -/
def analyzeClick (text : String) (resp : Response) (st : St) : ClickOut :=
  match analyzeValidate text with
  | .hostError e => ⟨st, none, some (.analysisFailedHost e)⟩
  | .invalid => ⟨st, none, some .validationError⟩
  | .send body =>
    match resp.body with
    | .error e => ⟨st, some body, some (.analysisFailedHost e)⟩
    | .ok data =>
      if resp.ok then
        match displayResults data with
        | .error e =>
          ⟨⟨some data, some (stringifyJson data), st.displayed⟩,
            some body, some (.analysisFailedHost e)⟩
        | .ok _ =>
          ⟨⟨some data, some (stringifyJson data), some data⟩, some body, none⟩
      else
        match serviceError data with
        | .error e => ⟨st, some body, some (.analysisFailedHost e)⟩
        | .ok m => ⟨st, some body, some (.analysisFailed m)⟩

/-- The report collaborator's response: its ok flag (the binary body is
opaque to the claims). -/
structure ReportResponse where
  ok : Bool

/-- Result of one generate-report click: the handler never writes the
analysis slot, localStorage or the panels; it may issue a request, show
an alert, and trigger a download with a fixed filename. -/
structure ReportOut where
  st : St
  request : Option String
  alert : Option AlertOut
  download : Option String

/-- The generate-report click handler: warn and stop when no current
analysis exists, otherwise post the JSON serialization of the current
analysis and download the document, surfacing a fixed failure message on
a non-ok response. -/
def generateReportClick (st : St) (resp : ReportResponse) : ReportOut :=
  match st.currentAnalysis with
  | none => ⟨st, none, some .noAnalysisWarning, none⟩
  | some a =>
    if resp.ok then ⟨st, some (stringifyJson a), none, some "audit_report.docx"⟩
    else ⟨st, some (stringifyJson a), some .reportFailed, none⟩

/-- The page-load restore step: localStorage.getItem is truthiness-checked
as a string, then parsed with no try/catch and rendered; any throw
escapes the DOMContentLoaded handler, aborting initialization, which the
error result models. -/
def restoreStep (saved : Option String) : Except JsErr St :=
  match saved with
  | none => .ok ⟨none, none, none⟩
  | some s =>
    if s = "" then .ok ⟨none, some s, none⟩
    else
      match jsonParse s with
      | .error e => .error e
      | .ok data =>
        match displayResults data with
        | .error e => .error e
        | .ok _ => .ok ⟨some data, some s, some data⟩

/-! ### Derived notions used by the statements -/

/-- Whether the analyze click reaches the fetch call. -/
def validationPasses (text : String) : Bool :=
  match analyzeValidate text with
  | .send _ => true
  | _ => false

/-- The four keys processSeverityData reads back out of its counts
object. -/
def isKnownSev (k : String) : Bool :=
  k = "high" ∨ k = "medium" ∨ k = "low" ∨ k = "unspecified"

/-- Whether a finding lands in one of the four returned buckets. -/
def knownSev (f : Json) : Bool :=
  match severityKey f with
  | .ok k => isKnownSev k
  | .error _ => false

/-- The bucket key a string severity folds to. -/
def sevStringKey (s : String) : String :=
  if s = "" then "unspecified" else lowerString s

/-- Sum of the four counts processSeverityData returns. -/
def sum4 (m : List (String × Nat)) : Nat :=
  getCount m "high" + getCount m "medium" + getCount m "low" +
    getCount m "unspecified"

/-- The branch keys of a participant list, in order. -/
def branchKeys : List Json → Except JsErr (List String)
  | [] => .ok []
  | p :: ps =>
    match branchKeyOf p with
    | .error e => .error e
    | .ok k =>
      match branchKeys ps with
      | .error e => .error e
      | .ok ks => .ok (k :: ks)

/-- Append a key if it has not been seen yet. -/
def insertSeen (acc : List String) (k : String) : List String :=
  if k ∈ acc then acc else acc ++ [k]

/-- The distinct keys of a list in first-seen order. -/
def firstSeen (ks : List String) : List String := ks.foldl insertSeen []

/-- Total of the counts held by a counts object. -/
def sumCounts (m : List (String × Nat)) : Nat := (m.map Prod.snd).sum

/-! ### Lemmas about the counts object -/

theorem getCount_bump (m : List (String × Nat)) (k key : String) :
    getCount (bump m k) key = getCount m key + if k = key then 1 else 0 := by
  induction m with
  | nil => by_cases h : k = key <;> simp [bump, getCount, h]
  | cons p rest ih =>
    obtain ⟨k1, n⟩ := p
    by_cases h1 : k1 = k
    · subst h1
      by_cases h2 : k1 = key <;> simp [bump, getCount, h2]
    · by_cases h2 : k1 = key
      · subst h2
        have hk : ¬k = k1 := fun hh => h1 hh.symm
        simp [bump, getCount, h1, hk]
      · simp [bump, getCount, h1, h2, ih]

theorem sum4_bump (m : List (String × Nat)) (k : String) :
    sum4 (bump m k) = sum4 m + if isKnownSev k then 1 else 0 := by
  simp only [sum4, getCount_bump]
  by_cases h1 : k = "high"
  · subst h1
    simp only [isKnownSev]
    simp
    omega
  · by_cases h2 : k = "medium"
    · subst h2
      simp only [isKnownSev]
      simp
      omega
    · by_cases h3 : k = "low"
      · subst h3
        simp only [isKnownSev]
        simp
        omega
      · by_cases h4 : k = "unspecified"
        · subst h4
          simp only [isKnownSev]
          simp
          omega
        · simp only [isKnownSev]
          simp [h1, h2, h3, h4]

theorem countSeverities_sum4 (fs : List Json) :
    ∀ m m2, countSeverities m fs = .ok m2 →
      sum4 m2 = sum4 m + (fs.filter knownSev).length := by
  induction fs with
  | nil =>
    intro m m2 h
    simp only [countSeverities] at h
    cases h
    simp
  | cons f rest ih =>
    intro m m2 h
    simp only [countSeverities] at h
    cases hk : severityKey f with
    | error e =>
      rw [hk] at h
      exact Except.noConfusion h
    | ok k =>
      rw [hk] at h
      have hsum := ih (bump m k) m2 h
      have hknown : knownSev f = isKnownSev k := by
        simp only [knownSev, hk]
      rw [hsum, sum4_bump, List.filter_cons, hknown]
      cases hks : isKnownSev k
      · simp [hks]
      · simp [hks]
        omega

theorem insertSeen_cons (k1 k : String) (ks : List String) (h : ¬k = k1) :
    insertSeen (k1 :: ks) k = k1 :: insertSeen ks k := by
  simp only [insertSeen, List.mem_cons]
  by_cases hm : k ∈ ks
  · simp [hm]
  · simp [hm, h]

theorem map_fst_bump (m : List (String × Nat)) (k : String) :
    (bump m k).map Prod.fst = insertSeen (m.map Prod.fst) k := by
  induction m with
  | nil => simp [bump, insertSeen]
  | cons p rest ih =>
    obtain ⟨k1, n⟩ := p
    by_cases h : k1 = k
    · subst h
      simp [bump, insertSeen]
    · have h2 : ¬k = k1 := fun hh => h hh.symm
      simp only [bump, if_neg h, List.map_cons, ih, insertSeen_cons k1 k _ h2]

theorem countBranches_keys (ps : List Json) :
    ∀ m m2, countBranches m ps = .ok m2 →
      ∃ ks, branchKeys ps = .ok ks ∧
        m2.map Prod.fst = ks.foldl insertSeen (m.map Prod.fst) := by
  induction ps with
  | nil =>
    intro m m2 h
    simp only [countBranches] at h
    cases h
    exact ⟨[], rfl, rfl⟩
  | cons p rest ih =>
    intro m m2 h
    simp only [countBranches] at h
    cases hk : branchKeyOf p with
    | error e =>
      rw [hk] at h
      exact Except.noConfusion h
    | ok k =>
      rw [hk] at h
      obtain ⟨ks, hks, hmap⟩ := ih (bump m k) m2 h
      refine ⟨k :: ks, ?_, ?_⟩
      · simp [branchKeys, hk, hks]
      · rw [hmap, List.foldl_cons, map_fst_bump]

theorem sumCounts_bump (m : List (String × Nat)) (k : String) :
    sumCounts (bump m k) = sumCounts m + 1 := by
  induction m with
  | nil => simp [bump, sumCounts]
  | cons p rest ih =>
    obtain ⟨k1, n⟩ := p
    by_cases h : k1 = k
    · subst h
      simp [bump, sumCounts]
      omega
    · simp only [bump, if_neg h, sumCounts, List.map_cons, List.sum_cons] at ih ⊢
      omega

theorem countBranches_sum (ps : List Json) :
    ∀ m m2, countBranches m ps = .ok m2 →
      sumCounts m2 = sumCounts m + ps.length := by
  induction ps with
  | nil =>
    intro m m2 h
    simp only [countBranches] at h
    cases h
    simp
  | cons p rest ih =>
    intro m m2 h
    simp only [countBranches] at h
    cases hk : branchKeyOf p with
    | error e =>
      rw [hk] at h
      exact Except.noConfusion h
    | ok k =>
      rw [hk] at h
      have := ih (bump m k) m2 h
      rw [this, sumCounts_bump]
      simp only [List.length_cons]
      omega

theorem bump_pos (m : List (String × Nat)) (k : String)
    (hm : ∀ q ∈ m, 1 ≤ q.2) : ∀ q ∈ bump m k, 1 ≤ q.2 := by
  induction m with
  | nil =>
    intro q hq
    simp only [bump, List.mem_singleton] at hq
    rw [hq]
  | cons p rest ih =>
    obtain ⟨k1, n⟩ := p
    intro q hq
    by_cases h : k1 = k
    · simp only [bump, if_pos h, List.mem_cons] at hq
      rcases hq with h1 | h1
      · rw [h1]
        exact Nat.succ_le_succ (Nat.zero_le n)
      · exact hm q (List.mem_cons_of_mem _ h1)
    · simp only [bump, if_neg h, List.mem_cons] at hq
      rcases hq with h1 | h1
      · rw [h1]
        exact hm (k1, n) (List.mem_cons_self _ _)
      · exact ih (fun q2 hq2 => hm q2 (List.mem_cons_of_mem _ hq2)) q h1

theorem countBranches_pos (ps : List Json) :
    ∀ m m2, countBranches m ps = .ok m2 → (∀ q ∈ m, 1 ≤ q.2) →
      ∀ q ∈ m2, 1 ≤ q.2 := by
  induction ps with
  | nil =>
    intro m m2 h hm
    simp only [countBranches] at h
    cases h
    exact hm
  | cons p rest ih =>
    intro m m2 h hm
    simp only [countBranches] at h
    cases hk : branchKeyOf p with
    | error e =>
      rw [hk] at h
      exact Except.noConfusion h
    | ok k =>
      rw [hk] at h
      exact ih (bump m k) m2 h (bump_pos m k hm)

theorem map_getCount_self (m : List (String × Nat))
    (h : (m.map Prod.fst).Nodup) :
    (m.map Prod.fst).map (getCount m) = m.map Prod.snd := by
  induction m with
  | nil => rfl
  | cons p rest ih =>
    obtain ⟨k, n⟩ := p
    simp only [List.map_cons, List.nodup_cons] at h
    obtain ⟨hk, hrest⟩ := h
    simp only [List.map_cons]
    have hmap : (rest.map Prod.fst).map (getCount ((k, n) :: rest)) =
        (rest.map Prod.fst).map (getCount rest) := by
      apply List.map_congr_left
      intro k2 hk2
      have hne : ¬k = k2 := fun hh => hk (hh ▸ hk2)
      simp [getCount, hne]
    rw [hmap, ih hrest]
    simp [getCount]

theorem insertSeen_nodup (acc : List String) (k : String) (h : acc.Nodup) :
    (insertSeen acc k).Nodup := by
  by_cases hm : k ∈ acc
  · simpa [insertSeen, hm]
  · rw [insertSeen, if_neg hm, List.nodup_append]
    refine ⟨h, List.nodup_singleton k, ?_⟩
    intro a ha hak
    rw [List.mem_singleton] at hak
    rw [hak] at ha
    exact hm ha

theorem foldl_insertSeen_nodup (ks : List String) :
    ∀ acc, acc.Nodup → (ks.foldl insertSeen acc).Nodup := by
  induction ks with
  | nil => intro acc h; exact h
  | cons k rest ih =>
    intro acc h
    exact ih _ (insertSeen_nodup acc k h)

theorem insertSorted_perm (k : String) (l : List String) :
    List.Perm (insertSorted k l) (k :: l) := by
  induction l with
  | nil => exact List.Perm.refl _
  | cons x xs ih =>
    by_cases h : idxVal k ≤ idxVal x
    · rw [insertSorted, if_pos h]
    · rw [insertSorted, if_neg h]
      exact (ih.cons x).trans (List.Perm.swap k x xs)

theorem sortIndices_perm (l : List String) :
    List.Perm (sortIndices l) l := by
  induction l with
  | nil => exact List.Perm.refl _
  | cons k ks ih =>
    exact (insertSorted_perm k (sortIndices ks)).trans (ih.cons k)

theorem objectKeys_perm (m : List (String × Nat)) :
    List.Perm (objectKeys m) (m.map Prod.fst) := by
  unfold objectKeys
  exact ((sortIndices_perm _).append_right _).trans
    (List.filter_append_perm _ _)

theorem mem_foldl_insertSeen (ks : List String) :
    ∀ acc x, x ∈ ks.foldl insertSeen acc → x ∈ acc ∨ x ∈ ks := by
  induction ks with
  | nil =>
    intro acc x h
    exact Or.inl h
  | cons k rest ih =>
    intro acc x h
    rcases ih (insertSeen acc k) x h with h2 | h2
    · by_cases hm : k ∈ acc
      · simp only [insertSeen, if_pos hm] at h2
        exact Or.inl h2
      · simp only [insertSeen, if_neg hm] at h2
        rcases List.mem_append.mp h2 with h3 | h3
        · exact Or.inl h3
        · rw [List.mem_singleton] at h3
          rw [h3]
          exact Or.inr (List.mem_cons_self _ _)
    · exact Or.inr (List.mem_cons_of_mem _ h2)

theorem mem_firstSeen (ks : List String) (x : String)
    (h : x ∈ firstSeen ks) : x ∈ ks := by
  rcases mem_foldl_insertSeen ks [] x h with h2 | h2
  · exact absurd h2 (List.not_mem_nil x)
  · exact h2

theorem severityResultOf_sum (m : List (String × Nat)) :
    (severityResultOf m).values.sum = sum4 m := by
  simp only [severityResultOf, List.sum_cons, List.sum_nil, sum4]
  omega

theorem severityKey_strObj (s : String) :
    severityKey (.obj [("severity", .str s)]) = .ok (sevStringKey s) := by
  by_cases h : s = ""
  · rw [h]
    rfl
  · have hb : truthy (.str s) = true := by
      simp [truthy, h]
    simp [severityKey, getProp, lookupField, hb, sevStringKey, h]

/-! ### The claims -/

/-- C1 (amended): for a findings array that aggregates without a host
throw, the four returned bucket counts sum to the number of findings
whose folded severity key is one of high, medium, low, unspecified;
findings with any other severity are counted under dynamically created
keys the result never reads back, so the sum can fall short of the list
length.  An absent or empty findings list still yields four zero counts
and no error, as claimed. -/
theorem severity_bucket_sums (fs : List Json) (r : SeverityResult)
    (h : processSeverityData (some (.arr fs)) = .ok r) :
    r.values.sum = (fs.filter knownSev).length ∧
    (processSeverityData none).map SeverityResult.values = .ok [0, 0, 0, 0] ∧
    (processSeverityData (some (.arr []))).map SeverityResult.values =
      .ok [0, 0, 0, 0] := by
  refine ⟨?_, rfl, rfl⟩
  simp only [processSeverityData] at h
  cases hc : countSeverities initCounts fs with
  | error e =>
    rw [hc] at h
    exact Except.noConfusion h
  | ok m =>
    rw [hc] at h
    cases h
    rw [severityResultOf_sum, countSeverities_sum4 fs initCounts m hc]
    have h0 : sum4 initCounts = 0 := rfl
    rw [h0]
    omega

/-- Witness for severity_bucket_sums at a findings list holding one high,
one unknown and one missing severity: the buckets sum to 2, the number of
findings with a known key. -/
theorem severity_bucket_sums_witness :
    (⟨severityLabels, [1, 0, 0, 1], severityColors, severityBorderColors⟩ :
        SeverityResult).values.sum =
      (([.obj [("severity", .str "High")],
         .obj [("severity", .str "Critical")],
         .obj []] : List Json).filter knownSev).length :=
  (severity_bucket_sums
    [.obj [("severity", .str "High")], .obj [("severity", .str "Critical")],
      .obj []]
    ⟨severityLabels, [1, 0, 0, 1], severityColors, severityBorderColors⟩
    rfl).1

/-- C1 counterexample: a single finding with severity "Critical" leaves
all four returned buckets at 0, so their sum is not the length 1 of the
findings list. -/
theorem severity_bucket_sums_cex :
    (processSeverityData (some (.arr [.obj [("severity", .str "Critical")]]))).map
        SeverityResult.values = .ok [0, 0, 0, 0] ∧
    ([0, 0, 0, 0] : List Nat).sum ≠
      ([.obj [("severity", .str "Critical")]] : List Json).length :=
  ⟨rfl, by decide⟩

/-- C2 (amended): severity routing case-folds and the folded key selects
the bucket by exact equality, so HIGH, High and high all land in the high
bucket and likewise for medium and low; but a severity whose folded form
is none of the four seeded keys is counted under its own dynamically
created key, which the result never reads back, instead of the
unspecified bucket; only a missing or empty severity, or one folding
exactly to "unspecified", reaches that bucket. -/
theorem severity_case_folding (s : String) :
    processSeverityData (some (.arr [.obj [("severity", .str s)]])) =
      .ok ⟨severityLabels,
        [if sevStringKey s = "high" then 1 else 0,
         if sevStringKey s = "medium" then 1 else 0,
         if sevStringKey s = "low" then 1 else 0,
         if sevStringKey s = "unspecified" then 1 else 0],
        severityColors, severityBorderColors⟩ ∧
    processSeverityData (some (.arr [.obj []])) =
      .ok ⟨severityLabels, [0, 0, 0, 1], severityColors,
        severityBorderColors⟩ := by
  refine ⟨?_, rfl⟩
  simp only [processSeverityData, countSeverities, severityKey_strObj]
  simp [severityResultOf, getCount_bump, getCount, initCounts]

/-- C2 counterexample: the claim puts severity "banana" in the
unspecified bucket, which would make the returned counts [0, 0, 0, 1];
the aggregator instead returns [0, 0, 0, 0]. -/
theorem severity_case_folding_cex :
    (processSeverityData (some (.arr [.obj [("severity", .str "banana")]]))).map
        SeverityResult.values ≠ .ok [0, 0, 0, 1] := by
  intro hcontra
  have h0 : (processSeverityData
      (some (.arr [.obj [("severity", .str "banana")]]))).map
        SeverityResult.values = .ok [0, 0, 0, 0] := rfl
  rw [h0] at hcontra
  simp at hcontra

/-- C3 (amended): a successful branch aggregation yields one bucket per
distinct branch key, where a missing branch field defaults to the literal
label "Unspecified", and each color is determined solely by the bucket
index through the golden-angle formula embodied in branchColor; the
bucket labels follow the JavaScript own-property order — branch keys that
are array-index strings come first in ascending numeric order, the
remaining keys after them in first-seen order — so the claimed first-seen
order holds exactly on inputs whose branch keys include no array-index
string. -/
theorem branch_buckets_order (ps : List Json) (r : BranchResult)
    (h : processBranchData (some (.arr ps)) = .ok r) :
    (∃ ks, branchKeys ps = .ok ks ∧
      r.labels =
        sortIndices ((firstSeen ks).filter isArrayIndex) ++
          (firstSeen ks).filter (fun k => !isArrayIndex k) ∧
      ((∀ k ∈ ks, isArrayIndex k = false) → r.labels = firstSeen ks)) ∧
    r.labels.Nodup ∧
    r.colors = (List.range r.labels.length).map branchColor ∧
    (∀ p, getProp p "branch" = .ok none →
      branchKeyOf p = .ok "Unspecified") := by
  simp only [processBranchData] at h
  cases hc : countBranches [] ps with
  | error e =>
    rw [hc] at h
    exact Except.noConfusion h
  | ok m =>
    rw [hc] at h
    cases h
    obtain ⟨ks, hks, hmap⟩ := countBranches_keys ps [] m hc
    have hmap2 : m.map Prod.fst = firstSeen ks := by
      simpa [firstSeen] using hmap
    have hlabels : (branchResultOf m).labels =
        sortIndices ((firstSeen ks).filter isArrayIndex) ++
          (firstSeen ks).filter (fun k => !isArrayIndex k) := by
      simp only [branchResultOf, objectKeys, hmap2]
    refine ⟨⟨ks, hks, hlabels, ?_⟩, ?_, rfl, ?_⟩
    · intro hall
      have hfs : ∀ k ∈ firstSeen ks, isArrayIndex k = false := fun k hk =>
        hall k (mem_firstSeen ks k hk)
      have h1 : (firstSeen ks).filter isArrayIndex = [] :=
        List.filter_eq_nil_iff.mpr fun a ha => by simp [hfs a ha]
      have h2 : (firstSeen ks).filter (fun k => !isArrayIndex k) =
          firstSeen ks :=
        List.filter_eq_self.mpr fun a ha => by simp [hfs a ha]
      rw [hlabels, h1, h2]
      rfl
    · have hnd : (m.map Prod.fst).Nodup := by
        rw [hmap2]
        exact foldl_insertSeen_nodup ks [] List.nodup_nil
      have hnd2 : (branchResultOf m).labels.Nodup :=
        (objectKeys_perm m).nodup_iff.mpr hnd
      exact hnd2
    · intro p hp
      simp [branchKeyOf, hp]

/-- C3 counterexample: branches "2" then "1" are array-index keys, so
Object.keys lists them in ascending numeric order ["1", "2"] rather than
in the claimed first-seen order ["2", "1"]. -/
theorem branch_first_seen_cex :
    (processBranchData (some (.arr [.obj [("branch", .str "2")],
        .obj [("branch", .str "1")]]))).map BranchResult.labels =
      .ok ["1", "2"] ∧
    firstSeen ["2", "1"] = ["2", "1"] ∧
    (["1", "2"] : List String) ≠ ["2", "1"] := ⟨rfl, rfl, by decide⟩

/-- Witness for branch_buckets_order: two participants in NYC around one
with no branch give buckets NYC then Unspecified, with the positional
golden-angle colors. -/
theorem branch_buckets_order_witness :
    (⟨["NYC", "Unspecified"], [2, 1],
      ["hsla(0, 70%, 60%, 0.7)", "hsla(137.508, 70%, 60%, 0.7)"]⟩ :
        BranchResult).colors =
      (List.range (⟨["NYC", "Unspecified"], [2, 1],
        ["hsla(0, 70%, 60%, 0.7)", "hsla(137.508, 70%, 60%, 0.7)"]⟩ :
          BranchResult).labels.length).map branchColor :=
  (branch_buckets_order
    [.obj [("branch", .str "NYC")], .obj [], .obj [("branch", .str "NYC")]]
    ⟨["NYC", "Unspecified"], [2, 1],
      ["hsla(0, 70%, 60%, 0.7)", "hsla(137.508, 70%, 60%, 0.7)"]⟩
    rfl).2.2.1

/-- C9 (confirmed): a successful branch aggregation returns counts that
sum to the number of participants, every bucket count is at least 1, and
the labels, values and colors lists all have the same length. -/
theorem branch_totals (ps : List Json) (r : BranchResult)
    (h : processBranchData (some (.arr ps)) = .ok r) :
    r.values.sum = ps.length ∧ (∀ v ∈ r.values, 1 ≤ v) ∧
    r.labels.length = r.values.length ∧
    r.values.length = r.colors.length := by
  simp only [processBranchData] at h
  cases hc : countBranches [] ps with
  | error e =>
    rw [hc] at h
    exact Except.noConfusion h
  | ok m =>
    rw [hc] at h
    cases h
    obtain ⟨ks, hks, hmap⟩ := countBranches_keys ps [] m hc
    have hnd : (m.map Prod.fst).Nodup := by
      rw [hmap]
      exact foldl_insertSeen_nodup ks [] List.nodup_nil
    have hperm := objectKeys_perm m
    refine ⟨?_, ?_, ?_, ?_⟩
    · calc (branchResultOf m).values.sum
          = ((objectKeys m).map (getCount m)).sum := rfl
        _ = ((m.map Prod.fst).map (getCount m)).sum :=
            (hperm.map (getCount m)).sum_eq
        _ = (m.map Prod.snd).sum := by rw [map_getCount_self m hnd]
        _ = ps.length := by
            have hs := countBranches_sum ps [] m hc
            simpa [sumCounts] using hs
    · intro v hv
      have hv2 : v ∈ (objectKeys m).map (getCount m) := hv
      obtain ⟨k, hk, hk2⟩ := List.mem_map.mp hv2
      have hkm : k ∈ m.map Prod.fst := hperm.mem_iff.mp hk
      have hvm : v ∈ m.map Prod.snd := by
        rw [← map_getCount_self m hnd]
        exact List.mem_map.mpr ⟨k, hkm, hk2⟩
      obtain ⟨q, hq, hq2⟩ := List.mem_map.mp hvm
      rw [← hq2]
      exact countBranches_pos ps [] m hc (fun q2 hq2 => absurd hq2 (by simp)) q hq
    · simp [branchResultOf]
    · simp [branchResultOf]

/-- Witness for branch_totals: two participants in the same branch give
one bucket of count 2, which sums to the participant count. -/
theorem branch_totals_witness :
    ([2] : List Nat).sum =
      ([.obj [("branch", .str "LA")],
        .obj [("branch", .str "LA")]] : List Json).length :=
  (branch_totals
    [.obj [("branch", .str "LA")], .obj [("branch", .str "LA")]]
    ⟨["LA"], [2], ["hsla(0, 70%, 60%, 0.7)"]⟩ rfl).1

/-- C4 (confirmed): when the submitted text does not parse as JSON, or
parses to a value whose audit_report.exceptions path is undefined, the
analyze click issues no network request, shows an alert, and leaves the
current analysis, the persisted copy and the rendered results exactly as
they were. -/
theorem submit_rejected_no_request (text : String) (resp : Response)
    (st : St)
    (h : (∃ e, jsonParse (jsTrim text) = .error e) ∨
      (∃ j, jsonParse (jsTrim text) = .ok j ∧
        auditExceptionsOf j = .ok none)) :
    (analyzeClick text resp st).request = none ∧
    (analyzeClick text resp st).alert.isSome = true ∧
    (analyzeClick text resp st).st = st := by
  rcases h with ⟨e, he⟩ | ⟨j, hj, hex⟩
  · simp [analyzeClick, analyzeValidate, he]
  · simp [analyzeClick, analyzeValidate, hj, hex]

/-- Witness for submit_rejected_no_request: unparseable text is rejected
locally with no request and no state change. -/
theorem submit_rejected_no_request_witness :
    (analyzeClick "not json" ⟨true, .ok .null⟩ ⟨none, none, none⟩).request =
        none ∧
    (analyzeClick "not json" ⟨true, .ok .null⟩
        ⟨none, none, none⟩).alert.isSome = true ∧
    (analyzeClick "not json" ⟨true, .ok .null⟩ ⟨none, none, none⟩).st =
      ⟨none, none, none⟩ :=
  submit_rejected_no_request "not json" ⟨true, .ok .null⟩ ⟨none, none, none⟩
    (Or.inl ⟨.syntaxError, rfl⟩)

/-- C5 (amended): validation is nothing but a truthiness test — the
request is sent, with the trimmed text verbatim as its body, exactly when
audit_report ?.exceptions evaluates without a throw to a truthy value; in
particular an empty exceptions array, being a truthy object, passes and
is sent, contrary to the claimed rejection of empty arrays, and any
truthy non-array value passes as well. -/
theorem submit_truthiness_only (text : String) (resp : Response) (st : St) :
    (analyzeClick text resp st).request = some (jsTrim text) ↔
      ∃ j v, jsonParse (jsTrim text) = .ok j ∧
        auditExceptionsOf j = .ok (some v) ∧ truthy v = true := by
  constructor
  · intro h
    cases hp : jsonParse (jsTrim text) with
    | error e => simp [analyzeClick, analyzeValidate, hp] at h
    | ok j =>
      cases hex : auditExceptionsOf j with
      | error e => simp [analyzeClick, analyzeValidate, hp, hex] at h
      | ok vo =>
        cases vo with
        | none => simp [analyzeClick, analyzeValidate, hp, hex] at h
        | some v =>
          cases ht : truthy v with
          | false => simp [analyzeClick, analyzeValidate, hp, hex, ht] at h
          | true => exact ⟨j, v, rfl, hex, ht⟩
  · rintro ⟨j, v, hp, hex, ht⟩
    have hv : analyzeValidate text = .send (jsTrim text) := by
      simp [analyzeValidate, hp, hex, ht]
    rcases resp with ⟨ok, body⟩
    cases body with
    | error e => simp [analyzeClick, hv]
    | ok data =>
      cases ok with
      | false =>
        cases hse : serviceError data with
        | error e => simp [analyzeClick, hv, hse]
        | ok m => simp [analyzeClick, hv, hse]
      | true =>
        cases hd : displayResults data with
        | error e => simp [analyzeClick, hv, hd]
        | ok u => simp [analyzeClick, hv, hd]

/-- Witness for submit_truthiness_only: the spec example input passes
validation and its trimmed text is sent verbatim as the body. -/
theorem submit_truthiness_only_witness :
    (analyzeClick
        "\x7b\"audit_report\":\x7b\"exceptions\":[\x7b\"severity\":\"High\"\x7d]\x7d\x7d"
        ⟨true, .ok .null⟩ ⟨none, none, none⟩).request =
      some (jsTrim
        "\x7b\"audit_report\":\x7b\"exceptions\":[\x7b\"severity\":\"High\"\x7d]\x7d\x7d") :=
  (submit_truthiness_only _ _ _).mpr
    ⟨.obj [("audit_report",
        .obj [("exceptions", .arr [.obj [("severity", .str "High")]])])],
      .arr [.obj [("severity", .str "High")]], rfl, rfl, rfl⟩

/-- C5 counterexample: the claim rejects an empty exceptions array before
any network request, but the empty array is truthy, so this input is sent
to the analysis service. -/
theorem submit_empty_exceptions_sent :
    (analyzeClick "\x7b\"audit_report\":\x7b\"exceptions\":[]\x7d\x7d"
        ⟨false, .ok .null⟩ ⟨none, none, none⟩).request =
      some "\x7b\"audit_report\":\x7b\"exceptions\":[]\x7d\x7d" := rfl

/-- C6 (confirmed): a successful analysis overwrites the single current
analysis slot and the persisted localStorage copy with exactly the
response value, in the same success handler, independently of whatever
analysis was stored before — replacement, never a merge. -/
theorem analysis_replaced_wholesale (text : String) (resp : Response)
    (st : St) (data : Json) (hok : resp.ok = true)
    (hbody : resp.body = .ok data) (hv : validationPasses text = true) :
    (analyzeClick text resp st).st.currentAnalysis = some data ∧
    (analyzeClick text resp st).st.stored = some (stringifyJson data) := by
  unfold validationPasses at hv
  cases hval : analyzeValidate text with
  | hostError e =>
    rw [hval] at hv
    simp at hv
  | invalid =>
    rw [hval] at hv
    simp at hv
  | send b =>
    cases hd : displayResults data with
    | error e => simp [analyzeClick, hval, hbody, hok, hd]
    | ok u => simp [analyzeClick, hval, hbody, hok, hd]

/-- Witness for analysis_replaced_wholesale: a successful response
replaces a non-empty prior state with the new analysis and its
serialization. -/
theorem analysis_replaced_wholesale_witness :
    (analyzeClick "\x7b\"audit_report\":\x7b\"exceptions\":true\x7d\x7d"
        ⟨true, .ok (.obj [("analysis", .obj [("summary", .str "OK")])])⟩
        ⟨some .null, some "old", some .null⟩).st.currentAnalysis =
      some (.obj [("analysis", .obj [("summary", .str "OK")])]) ∧
    (analyzeClick "\x7b\"audit_report\":\x7b\"exceptions\":true\x7d\x7d"
        ⟨true, .ok (.obj [("analysis", .obj [("summary", .str "OK")])])⟩
        ⟨some .null, some "old", some .null⟩).st.stored =
      some (stringifyJson (.obj [("analysis",
        .obj [("summary", .str "OK")])])) :=
  analysis_replaced_wholesale
    "\x7b\"audit_report\":\x7b\"exceptions\":true\x7d\x7d"
    ⟨true, .ok (.obj [("analysis", .obj [("summary", .str "OK")])])⟩
    ⟨some .null, some "old", some .null⟩
    (.obj [("analysis", .obj [("summary", .str "OK")])]) rfl rfl rfl

/-- C7 (confirmed): a non-ok response whose JSON body is not null leaves
the whole client state untouched and surfaces an analysis-failed alert
whose message is the body's error field when that field holds a truthy
value — in particular a non-empty error string is surfaced as is — and
the generic fallback text when the field is absent. -/
theorem service_failure_surfaced (text : String) (resp : Response) (st : St)
    (data : Json) (hv : validationPasses text = true) (hok : resp.ok = false)
    (hbody : resp.body = .ok data) (hnn : data ≠ .null) :
    (analyzeClick text resp st).st = st ∧
    ∃ m, serviceError data = .ok m ∧
      (analyzeClick text resp st).alert = some (.analysisFailed m) ∧
      (∀ fields s, data = .obj fields →
        lookupField fields "error" = some (.str s) → ¬s = "" →
        m = .ofJson (.str s)) ∧
      (∀ fields, data = .obj fields → lookupField fields "error" = none →
        m = .fallback) := by
  unfold validationPasses at hv
  cases hval : analyzeValidate text with
  | hostError e =>
    rw [hval] at hv
    simp at hv
  | invalid =>
    rw [hval] at hv
    simp at hv
  | send b =>
    have hserr : ∃ m, serviceError data = .ok m := by
      cases data with
      | null => exact absurd rfl hnn
      | obj fields =>
        cases hl : lookupField fields "error" with
        | none => exact ⟨.fallback, by simp [serviceError, getProp, hl]⟩
        | some x =>
          exact ⟨if truthy x then .ofJson x else .fallback,
            by simp [serviceError, getProp, hl]⟩
      | bool b2 => exact ⟨.fallback, rfl⟩
      | num m2 e2 => exact ⟨.fallback, rfl⟩
      | str s2 => exact ⟨.fallback, rfl⟩
      | arr xs => exact ⟨.fallback, rfl⟩
    obtain ⟨m, hm⟩ := hserr
    refine ⟨?_, m, hm, ?_, ?_, ?_⟩
    · simp [analyzeClick, hval, hbody, hok, hm]
    · simp [analyzeClick, hval, hbody, hok, hm]
    · intro fields s hdata hl hs
      rw [hdata] at hm
      simp [serviceError, getProp, hl] at hm
      have ht : truthy (.str s) = true := by
        simp [truthy, hs]
      rw [ht] at hm
      simp at hm
      exact hm.symm
    · intro fields hdata hl
      rw [hdata] at hm
      simp [serviceError, getProp, hl] at hm
      exact hm.symm

/-- Witness for service_failure_surfaced: a 4xx response carrying
error "boom" leaves the prior state alone and surfaces boom. -/
theorem service_failure_surfaced_witness :
    ((analyzeClick "\x7b\"audit_report\":\x7b\"exceptions\":[1]\x7d\x7d"
        ⟨false, .ok (.obj [("error", .str "boom")])⟩
        ⟨some .null, some "keep", none⟩).st =
      ⟨some .null, some "keep", none⟩) ∧
    ∃ m, serviceError (.obj [("error", .str "boom")]) = .ok m ∧
      (analyzeClick "\x7b\"audit_report\":\x7b\"exceptions\":[1]\x7d\x7d"
        ⟨false, .ok (.obj [("error", .str "boom")])⟩
        ⟨some .null, some "keep", none⟩).alert =
        some (.analysisFailed m) ∧
      (∀ fields s, (.obj [("error", .str "boom")] : Json) = .obj fields →
        lookupField fields "error" = some (.str s) → ¬s = "" →
        m = .ofJson (.str s)) ∧
      (∀ fields, (.obj [("error", .str "boom")] : Json) = .obj fields →
        lookupField fields "error" = none → m = .fallback) :=
  service_failure_surfaced
    "\x7b\"audit_report\":\x7b\"exceptions\":[1]\x7d\x7d"
    ⟨false, .ok (.obj [("error", .str "boom")])⟩
    ⟨some .null, some "keep", none⟩ (.obj [("error", .str "boom")])
    rfl rfl rfl (fun hh => Json.noConfusion hh)

/-- C8 (confirmed): with no current analysis the report click emits the
warning, issues no request and changes nothing; with a current analysis,
the request body is exactly the JSON serialization of that analysis and
the state is untouched. -/
theorem report_click_behavior (st : St) (resp : ReportResponse) :
    (st.currentAnalysis = none →
      generateReportClick st resp =
        ⟨st, none, some .noAnalysisWarning, none⟩) ∧
    (∀ a, st.currentAnalysis = some a →
      (generateReportClick st resp).request = some (stringifyJson a) ∧
      (generateReportClick st resp).st = st) := by
  constructor
  · intro h
    simp [generateReportClick, h]
  · intro a h
    rcases resp with ⟨ok⟩
    cases ok <;> simp [generateReportClick, h]

/-- Witness for report_click_behavior at both sides of the precondition:
no analysis warns without a request; an analysis is serialized into the
body. -/
theorem report_click_behavior_witness :
    generateReportClick ⟨none, none, none⟩ ⟨true⟩ =
      ⟨⟨none, none, none⟩, none, some .noAnalysisWarning, none⟩ ∧
    (generateReportClick ⟨some (.str "a"), none, none⟩ ⟨true⟩).request =
      some (stringifyJson (.str "a")) :=
  ⟨(report_click_behavior ⟨none, none, none⟩ ⟨true⟩).1 rfl,
   ((report_click_behavior ⟨some (.str "a"), none, none⟩ ⟨true⟩).2
     (.str "a") rfl).1⟩

/-- C10 (confirmed): the restore step parses and renders with no guard:
the persisted string "null" parses to null and the renderer then throws a
TypeError, a non-JSON persisted value throws a SyntaxError at parse, and
non-object JSON such as "5" throws a TypeError in the renderer, so
page-load initialization aborts instead of falling back to the empty
idle state; only an absent value restores to idle. -/
theorem restore_unguarded :
    restoreStep (some "null") = .error .typeError ∧
    restoreStep (some "\x7boops") = .error .syntaxError ∧
    restoreStep (some "5") = .error .typeError ∧
    restoreStep none = .ok ⟨none, none, none⟩ := ⟨rfl, rfl, rfl, rfl⟩

end AuditIQ
